import Mathlib

/-!
Verification of the unitdb storage engine against a Lean shallow embedding.

Each Go structure of the engine is translated into a Lean structure; Go maps
become association lists with unique keys, byte buffers become lists of
naturals below 256, and machine-integer arithmetic is made explicit with
`% 2 ^ w` where overflow can occur.  Wall-clock readings are passed in as
explicit arguments.  The theorems at the end of the file settle the spec
claims against these definitions.
-/

namespace Unitdb

/-! ## Association-list maps (model of Go maps) -/

def alookup {α β : Type} [DecidableEq α] (l : List (α × β)) (k : α) : Option β :=
  match l with
  | [] => none
  | (k1, v) :: t => if k1 = k then some v else alookup t k

def ainsert {α β : Type} [DecidableEq α] (l : List (α × β)) (k : α) (v : β) :
    List (α × β) :=
  match l with
  | [] => [(k, v)]
  | (k1, v1) :: t => if k1 = k then (k, v) :: t else (k1, v1) :: ainsert t k v

def aerase {α β : Type} [DecidableEq α] (l : List (α × β)) (k : α) : List (α × β) :=
  match l with
  | [] => []
  | (k1, v1) :: t => if k1 = k then t else (k1, v1) :: aerase t k

/-- The keys of an association list. -/
def akeys {α β : Type} (l : List (α × β)) : List α := l.map Prod.fst

/-! ## Byte buffers and little-endian codecs

Models of Go byte slices with `binary.LittleEndian.PutUintXX` writes,
`WriteAt` and the `readRaw` slicing used by the memdb tables. -/

/-- Little-endian encoding of `n` into `w` bytes
(model of binary.LittleEndian.PutUintXX into a w-byte slice). -/
def toLE : Nat → Nat → List Nat
  | 0, _ => []
  | w + 1, n => n % 256 :: toLE w (n / 256)

/-- Little-endian decoding of a byte list (model of binary.LittleEndian.UintXX). -/
def fromLE : List Nat → Nat
  | [] => 0
  | b :: bs => b + 256 * fromLE bs

/-- Model of `WriteAt`: overwrite the bytes of `s` at offset `off` with `p`. -/
def writeAt (s p : List Nat) (off : Nat) : List Nat :=
  s.take off ++ p ++ s.drop (off + p.length)

/-- Model of `readRaw`/`ReadAt`: the `len` bytes of `s` starting at `off`. -/
def readRaw (s : List Nat) (off len : Nat) : List Nat :=
  (s.drop off).take len

/-! ## Time-mark (src/memdb/timemark.go)

`_TimeID` is an `int64` nanosecond stamp, modelled as `Int`.  The Go maps
`records` and `releasedRecords` are association lists.  Wall-clock readings
(`time.Now().UTC().UnixNano()` and `time.Now().UTC().Nanosecond()`) are
passed in as explicit arguments where the source consults the clock. -/

structure _TimeRecord where
  refs : Int
  lastUnref : Int
  deriving Repr, DecidableEq

structure _TimeMark where
  durations : Int
  timeRecord : _TimeRecord
  records : List (Int × _TimeRecord)
  releasedRecords : List (Int × _TimeRecord)
  deriving Repr, DecidableEq

/-- `newTimeMark` (constructor in timemark.go): empty maps, `timeRecord`
stamped with the current wall clock `now`. -/
def newTimeMark (expiryDuration now : Int) : _TimeMark :=
  { durations := expiryDuration
    timeRecord := { refs := 0, lastUnref := now }
    records := []
    releasedRecords := [] }

/-- `_TimeRecord.isExpired(expDur)`.  The source compares
`int64(r.lastUnref)+expDur.Nanoseconds()` against
`int64(time.Now().UTC().Nanosecond())` — the sub-second nanosecond component,
passed here as `nowNanosecond` (always in `[0, 10^9)`). -/
def _TimeRecord.isExpired (r : _TimeRecord) (expDur nowNanosecond : Int) : Bool :=
  r.lastUnref > 0 && r.lastUnref + expDur ≤ nowNanosecond

/-- `_TimeRecord.isReleased(lastUnref)`: the stamp must be positive and
strictly older than the argument stamp. -/
def _TimeRecord.isReleasedRec (r : _TimeRecord) (lastUnref : Int) : Bool :=
  r.lastUnref > 0 && r.lastUnref < lastUnref

/-- `_TimeMark.newTimeRecord()`: re-stamp `timeRecord` with the current
wall clock `now`. -/
def _TimeMark.newTimeRecord (tm : _TimeMark) (now : Int) : _TimeMark :=
  { tm with timeRecord := { refs := 0, lastUnref := now } }

/-- `_TimeMark.add(timeID)`.  The source reads the existing record into a
local copy and increments `r.refs` on the copy, but the incremented copy is
discarded: the map is then unconditionally overwritten with
`_TimeRecord{refs: 1}` (zero `lastUnref`). -/
def _TimeMark.add (tm : _TimeMark) (timeID : Int) : _TimeMark :=
  { tm with records := ainsert tm.records timeID { refs := 1, lastUnref := 0 } }

/-- `_TimeMark.release(timeID)`: decrement the refcount; at zero (or below),
move the record to `releasedRecords` stamped with the current
`timeRecord.lastUnref`. -/
def _TimeMark.release (tm : _TimeMark) (timeID : Int) : _TimeMark :=
  match alookup tm.records timeID with
  | none => tm
  | some timeMark =>
    let timeMark := { timeMark with refs := timeMark.refs - 1 }
    if timeMark.refs > 0 then
      { tm with records := ainsert tm.records timeID timeMark }
    else
      { tm with
        records := aerase tm.records timeID
        releasedRecords := ainsert tm.releasedRecords timeID
          { timeMark with lastUnref := tm.timeRecord.lastUnref } }

/-- `_TimeMark.isReleased(timeID)`: look in `releasedRecords` only; an
aborted record (`refs == -1`) is not released; otherwise the record's stamp
must be strictly older than `timeRecord.lastUnref`. -/
def _TimeMark.isReleased (tm : _TimeMark) (timeID : Int) : Bool :=
  match alookup tm.releasedRecords timeID with
  | some r => if r.refs = -1 then false else r.isReleasedRec tm.timeRecord.lastUnref
  | none => false

/-- `_TimeMark.isAborted(timeID)`. -/
def _TimeMark.isAborted (tm : _TimeMark) (timeID : Int) : Bool :=
  match alookup tm.releasedRecords timeID with
  | some r => r.refs = -1
  | none => false

/-- `_TimeMark.abort(timeID)`: drop from `records`, insert into
`releasedRecords` with the sentinel refcount `-1`. -/
def _TimeMark.abort (tm : _TimeMark) (timeID : Int) : _TimeMark :=
  { tm with
    records := aerase tm.records timeID
    releasedRecords := ainsert tm.releasedRecords timeID
      { refs := -1, lastUnref := tm.timeRecord.lastUnref } }

/-- `_TimeMark.startExpirer()`: sweep `releasedRecords`, removing every
record whose `isExpired(durations)` is true at this clock reading. -/
def _TimeMark.startExpirer (tm : _TimeMark) (nowNanosecond : Int) : _TimeMark :=
  { tm with releasedRecords := List.filter (fun kv => !(kv.2.isExpired tm.durations nowNanosecond)) tm.releasedRecords }

/-- Operations of the claimed `add/release/startExpirer` traces (`isReleased`
is a pure reader and does not change the state). -/
inductive TMOp where
  | add (timeID : Int)
  | release (timeID : Int)
  | expirer (nowNanosecond : Int)
  deriving Repr, DecidableEq

def tmStep (tm : _TimeMark) : TMOp → _TimeMark
  | TMOp.add t => tm.add t
  | TMOp.release t => tm.release t
  | TMOp.expirer nowNs => tm.startExpirer nowNs

def tmRun (tm : _TimeMark) (ops : List TMOp) : _TimeMark :=
  ops.foldl tmStep tm

/-- Invariant of the time-mark along `add/release/startExpirer` traces: the
`timeRecord` stamp never changes (only `newTimeRecord` would change it) and
every record in `releasedRecords` carries exactly that stamp (release copies
the current `timeRecord.lastUnref` into the record it moves). -/
def tmInv (s0 : Int) (tm : _TimeMark) : Prop :=
  tm.timeRecord.lastUnref = s0 ∧ ∀ kv ∈ tm.releasedRecords, kv.2.lastUnref = s0

/-- Time-mark state exhibiting the refcount behaviour of `add`: timeID 5 is
present with refcount 2. -/
def tmRefcountExample : _TimeMark :=
  { durations := 0
    timeRecord := { refs := 0, lastUnref := 100 }
    records := [(5, { refs := 2, lastUnref := 0 })]
    releasedRecords := [] }

/-- Time-mark state for the expirer: a released record stamped with the
UnixNano value 1600000000000000000 (September 2020) and a one-second expiry
duration. -/
def tmExpiryExample : _TimeMark :=
  { durations := 1000000000
    timeRecord := { refs := 0, lastUnref := 1600000002000000000 }
    records := []
    releasedRecords := [(7, { refs := 0, lastUnref := 1600000000000000000 })] }

/-- State reached from a fresh time-mark (stamp 100) by `add 5` then
`release 5`. -/
def tmAddRelease : _TimeMark := ((newTimeMark 0 100).add 5).release 5

/-!  Int64 casts used by the WAL header codec (Go `uint64(x)` / `int64(u)`). -/

/-- Go `uint64(x)` for an `int64` value: two's-complement cast. -/
def uint64ofInt (x : Int) : Nat := (x % (2 ^ 64 : Int)).toNat

/-- Go `int64(u)` for a `uint64` value: two's-complement cast back. -/
def int64ofUInt (n : Nat) : Int :=
  if n < 2 ^ 63 then (n : Int) else (n : Int) - 2 ^ 64

/-! ## WAL group header (src/wal/header.go) -/

/-- `_LogInfo`: the WAL group header.  `version` and `status` are `uint16`,
`entryCount` and `size` are `uint32`, `timeID` and `offset` are `int64`. -/
structure _LogInfo where
  version : Nat
  status : Nat
  timeID : Int
  entryCount : Nat
  size : Nat
  offset : Int
  deriving Repr, DecidableEq

/-- `logHeaderSize = 28` (wal/header.go). -/
def logHeaderSize : Nat := 28

/-- `_LogInfo.MarshalBinary` (header.go lines 41-50): a 28-byte buffer with
the six fields written little-endian at offsets 0, 2, 4, 12, 16 and 20. -/
def _LogInfo.MarshalBinary (l : _LogInfo) : List Nat :=
  toLE 2 l.version ++ toLE 2 l.status ++ toLE 8 (uint64ofInt l.timeID) ++
    toLE 4 l.entryCount ++ toLE 4 l.size ++ toLE 8 (uint64ofInt l.offset)

/-- `_LogInfo.UnmarshalBinary` (header.go lines 53-61): decode the six
little-endian fields from `data[:2]`, `data[2:4]`, `data[4:12]`,
`data[12:16]`, `data[16:20]`, `data[20:28]`. -/
def _LogInfo.UnmarshalBinary (data : List Nat) : _LogInfo :=
  { version := fromLE (readRaw data 0 2)
    status := fromLE (readRaw data 2 2)
    timeID := int64ofUInt (fromLE (readRaw data 4 8))
    entryCount := fromLE (readRaw data 12 4)
    size := fromLE (readRaw data 16 4)
    offset := int64ofUInt (fromLE (readRaw data 20 8)) }

/-! ## Segmented log file (WAL file.go)

`_Segment.size` is a `uint32`; its arithmetic wraps modulo `2^32`.
`_Segment.offset` and the file sizes are `int64`, modelled as `Int`. -/

structure _Segment where
  offset : Int
  size : Nat
  deriving Repr, DecidableEq

/-- The three segments `[0]` free-head, `[1]` live tail, `[2]` retired. -/
structure _Segments where
  seg0 : _Segment
  seg1 : _Segment
  seg2 : _Segment
  deriving Repr, DecidableEq

/-- `_Segments.currSize()`: the size of segment 1. -/
def _Segments.currSize (sg : _Segments) : Nat := sg.seg1.size

/-- Go `uint32` subtraction (wraps modulo `2^32`). -/
def usub32 (a b : Nat) : Nat := (a + 2 ^ 32 - b % 2 ^ 32) % 2 ^ 32

/-- `_Segments.allocate(size)` (file.go lines 99-104): return segment 1's
head offset, shrink segment 1 by `size` and advance its offset. -/
def _Segments.allocate (sg : _Segments) (size : Nat) : Int × _Segments :=
  let off := sg.seg1.offset
  (off, { sg with seg1 := { offset := sg.seg1.offset + size,
                            size := usub32 sg.seg1.size size } })

structure _File where
  size : Int
  targetSize : Int
  segments : _Segments
  deriving Repr, DecidableEq

/-- `_File.allocate(size)` (file.go lines 196-212).  `size = 0` panics
(`none`).  If `targetSize > size + request` or segment 1 is smaller than the
request, the file is extended (truncate modelled as pure growth on the happy
path) and the old end-of-file offset returned; otherwise the request is
carved from segment 1's head. -/
def _File.allocate (f : _File) (size : Nat) : Option (Int × _File) :=
  if size = 0 then none
  else if f.targetSize > f.size + size ∨ f.segments.currSize < size then
    some (f.size, { f with size := f.size + size })
  else
    let r := f.segments.allocate size
    some (r.1, { f with segments := r.2 })

/-- A small segmented file that the extend branch of `allocate` hits
(target size still larger than the file). -/
def fileExtendExample : _File :=
  { size := 100
    targetSize := 1000
    segments :=
      { seg0 := { offset := 47, size := 0 }
        seg1 := { offset := 47, size := 0 }
        seg2 := { offset := 0, size := 0 } } }

/-- A segmented file past its target size with 50 free bytes in segment 1,
so `allocate` carves from segment 1. -/
def fileCarveExample : _File :=
  { size := 2000
    targetSize := 1000
    segments :=
      { seg0 := { offset := 47, size := 0 }
        seg1 := { offset := 60, size := 50 }
        seg2 := { offset := 0, size := 0 } } }

/-! ## Sequence assignment in setEntry (src/db_internal.go)

`setEntry` (lines 292-359) picks the sequence of an entry: from the caller
message ID if one is given, else from a reusable lease slot, else freshly
from `nextSeq` — and panics if the chosen sequence is zero.  `nextSeq`
(lines 474-476) is an atomic increment of the `uint64` counter
`db.sequence`.  The lease (`getSlot`) is not under src/; it is passed in as
an optional reusable sequence, per the spec a `{seq, msgOffset, mSize}`
triple reclaimed from a previously stored (hence nonzero-sequence)
message. -/

/-- `nextSeq`: `atomic.AddUint64(&db.sequence, 1)` wraps modulo `2^64`. -/
def nextSeq (sequence : Nat) : Nat := (sequence + 1) % 2 ^ 64

/-- Inputs that decide the sequence chosen by `setEntry`: the sequence of
the caller-provided message ID if `e.ID != nil`, the lease slot offered by
`getSlot` if any, and the current value of the `db.sequence` counter. -/
structure SeqChoiceInput where
  idSeq : Option Nat
  leaseSlot : Option Nat
  sequence : Nat
  deriving Repr, DecidableEq

/-- Outcome of the sequence-choosing portion of `setEntry`: either the
`seq == 0` panic, or a chosen sequence with the updated counter. -/
inductive SeqOutcome where
  | panicked
  | ok (seq : Nat) (sequence : Nat)
  deriving Repr, DecidableEq

/-- The sequence assignment of `setEntry`: `id.Sequence()` when an ID is
given; else a lease slot when `getSlot` finds one; else `nextSeq`.  The
`seq == 0` check then panics. -/
def setEntrySeq (i : SeqChoiceInput) : SeqOutcome :=
  let r : Nat × Nat :=
    match i.idSeq with
    | some s => (s, i.sequence)
    | none =>
      match i.leaseSlot with
      | some s => (s, i.sequence)
      | none => (nextSeq i.sequence, nextSeq i.sequence)
  if r.1 = 0 then SeqOutcome.panicked else SeqOutcome.ok r.1 r.2

/-! ## readEntry (src/db_internal.go lines 200-233)

The memdb probe (`db.mem.Get`) and the index file are external to the
function and are passed in: the probe result as a `MemGetResult` (an error
from the memdb, a miss, or a hit already unmarshalled into entry fields),
the index file as the function from block index to its 255 slots. -/

def entriesPerIndexBlock : Nat := 255

/-- `startBlockIndex` (spec: `blockIndex(seq) = (seq-1) / 255`). -/
def startBlockIndex (seq : Nat) : Nat := (seq - 1) / entriesPerIndexBlock

/-- An index slot as materialized by `readEntry` (seq, topic size, value
size, and the in-memory cache block on a memdb hit). -/
structure slot where
  seq : Nat
  topicSize : Nat
  valueSize : Nat
  cacheBlock : List Nat
  deriving Repr, DecidableEq

/-- The zero value `slot{}` returned by the fall-through of `readEntry`. -/
def zeroSlot : slot := { seq := 0, topicSize := 0, valueSize := 0, cacheBlock := [] }

/-- Error kinds of the unitdb package relevant here (src/unnamed/part_003),
plus the ad-hoc `cache for entry seq not found` error of the cache DB. -/
inductive DBError where
  | msgIdDeleted
  | msgIdDoesNotExist
  | entryDoesNotExist
  | badRequest
  | cacheEntryNotFound
  deriving Repr, DecidableEq

/-- The three possible results of the memdb probe in `readEntry`: an error
(mapped to `errMsgIDDeleted`), a nil-data miss, or data decoded into a
slot. -/
inductive MemGetResult where
  | errResult
  | missing
  | hit (s : slot)
  deriving Repr, DecidableEq

set_option linter.unusedVariables false in
/-- `readEntry(topicHash, seq)`: probe the memdb; on error return
`errMsgIDDeleted`; on a hit return the decoded slot; on a miss read the
index block at `startBlockIndex(seq)` and return the first slot whose
sequence matches, else the zero slot with a nil error. -/
def readEntry (memResult : MemGetResult) (readBlock : Nat → List slot)
    (topicHash seq : Nat) : Except DBError slot :=
  match memResult with
  | MemGetResult.errResult => Except.error DBError.msgIdDeleted
  | MemGetResult.hit s => Except.ok s
  | MemGetResult.missing =>
    let entries := readBlock (startBlockIndex seq)
    match entries.find? (fun s => s.seq == seq) with
    | some s => Except.ok s
    | none => Except.ok zeroSlot

/-! ## In-memory cache DB (src/unnamed/part_002)

`DB` holds a byte table (`blockCache`) and a `map[uint64]int64` from key to
offset.  The `tableManager` backing (`mem.newTable`) is not under src/; it
is spec-modelled as a growable byte vector whose `allocate` returns the old
end of the table and extends it, with `writeAt`/`readRaw` as plain
offset-addressed writes and reads. -/

structure CacheDB where
  blockCache : List Nat
  cache : List (Nat × Nat)
  deriving Repr, DecidableEq

/-- `Open` yields an empty table and an empty cache map. -/
def cacheOpen : CacheDB := { blockCache := [], cache := [] }

/-- `DB.Set(key, data)` (part_002 lines 197-215): allocate
`uint32(len(data)+4)` bytes at the end of the table, write the 4-byte
little-endian length prefix at the offset, the payload at `offset+4`, and
bind `cache[key]` to the offset. -/
def CacheDB.Set (db : CacheDB) (key : Nat) (data : List Nat) : CacheDB :=
  let n := (data.length + 4) % 2 ^ 32
  let off := db.blockCache.length
  let t0 := db.blockCache ++ List.replicate n 0
  let t1 := writeAt t0 (toLE 4 n) off
  let t2 := writeAt t1 data (off + 4)
  { blockCache := t2, cache := ainsert db.cache key off }

/-- `DB.Get(key)` (part_002 lines 155-172): look up the offset; missing
keys give the `cache for entry seq not found` error; otherwise read the
4-byte length prefix, then the whole frame, and return the payload past the
prefix. -/
def CacheDB.Get (db : CacheDB) (key : Nat) : Except DBError (List Nat) :=
  match alookup db.cache key with
  | none => Except.error DBError.cacheEntryNotFound
  | some off =>
    let scratch := readRaw db.blockCache off 4
    let dataLen := fromLE scratch
    let data := readRaw db.blockCache off dataLen
    Except.ok (data.drop 4)

/-- Well-formedness of the cache DB: every cached offset points at a frame
`lengthPrefix ++ value` lying inside the table. -/
def cacheWF (db : CacheDB) : Prop :=
  ∀ k off, alookup db.cache k = some off →
    ∃ v : List Nat, v.length + 4 < 2 ^ 32 ∧
      off + (v.length + 4) ≤ db.blockCache.length ∧
      readRaw db.blockCache off (v.length + 4) = toLE 4 (v.length + 4) ++ v

/-- A sequence of `Set` operations executed from the opened (empty) DB. -/
def cacheRun (ops : List (Nat × List Nat)) : CacheDB :=
  ops.foldl (fun db kv => db.Set kv.1 kv.2) cacheOpen

/-- Specification-side view of a sequence of `Set` operations: the most
recent binding for a key (the last `Set` wins), `none` for a key never
set. -/
def lastSet : List (Nat × List Nat) → Nat → Option (List Nat)
  | [], _ => none
  | kv :: rest, k =>
    match lastSet rest k with
    | some v => some v
    | none => if kv.1 = k then some kv.2 else none

/-! ## Memdb block and WAL recovery replay (src/memdb/timelock.go)

The `_DataTable` byte slab behind a block is not under src/; it is
spec-modelled as the same growable byte vector as the cache table
(append-only slab, `allocate` returns the old end).  `_Block.put` and the
recovery fold of `startRecover` are translated from the source. -/

/-- `_Key`: internal key with deleted flag (timelock.go lines 110-114). -/
structure _Key where
  delFlag : Nat
  key : Nat
  deriving Repr, DecidableEq

/-- `iKey` (timelock.go lines 162-168). -/
def iKey (delFlag : Bool) (k : Nat) : _Key :=
  { delFlag := if delFlag then 1 else 0, key := k }

/-- `_Block` (timelock.go lines 117-122): record count, byte slab, and the
`map[_Key]int64` from internal key to slab offset. -/
structure _Block where
  count : Int
  data : List Nat
  records : List (_Key × Nat)
  deriving Repr, DecidableEq

/-- `newBlock` (timelock.go lines 152-154). -/
def newBlock : _Block := { count := 0, data := [], records := [] }

/-- The framed record `| u32 length | u8 delFlag | u64 key | payload |`
that `_Block.put` lays down in the slab. -/
def encFrame (ik : _Key) (v : List Nat) : List Nat :=
  toLE 4 (v.length + 13) ++ ((ik.delFlag :: toLE 8 ik.key) ++ v)

/-- `_Block.put` (timelock.go lines 253-281): allocate
`uint32(len(data)+8+1+4)` bytes, write the 4-byte length prefix at the
offset, the flag byte and 8-byte little-endian key at `off+4`, record
`records[ikey] = off`, write the payload at `off+8+1+4`, and count
non-delete records. -/
def _Block.put (b : _Block) (ikey : _Key) (data : List Nat) : _Block :=
  let dataLen := (data.length + 8 + 1 + 4) % 2 ^ 32
  let off := b.data.length
  let t0 := b.data ++ List.replicate dataLen 0
  let t1 := writeAt t0 (toLE 4 dataLen) off
  let t2 := writeAt t1 (ikey.delFlag :: toLE 8 ikey.key) (off + 4)
  let t3 := writeAt t2 data (off + 8 + 1 + 4)
  { count := if ikey.delFlag = 0 then b.count + 1 else b.count
    data := t3
    records := ainsert b.records ikey off }

/-- Spec-modelled memdb `Get` restricted to one block: probe `records` with
the non-deleted internal key and decode the payload of the framed record at
the recorded offset. -/
def _Block.readValue (b : _Block) (k : Nat) : Option (List Nat) :=
  match alookup b.records (iKey false k) with
  | none => none
  | some off =>
    let scratch := readRaw b.data off 4
    let dataLen := fromLE scratch
    let frame := readRaw b.data off dataLen
    some (frame.drop (8 + 1 + 4))

/-- Well-formedness of a block: every recorded offset points at the framed
record of its internal key lying inside the slab. -/
def blockWF (b : _Block) : Prop :=
  ∀ ik off, alookup b.records ik = some off →
    ∃ v : List Nat, v.length + 13 < 2 ^ 32 ∧
      off + (v.length + 13) ≤ b.data.length ∧
      readRaw b.data off (v.length + 13) = encFrame ik v

/-- Parse one recovered WAL record as `startRecover` does (timelock.go
lines 459-461): `dBit := logData[0]`, `key := LittleEndian.Uint64
(logData[1:9])`, `val := logData[9:]`. -/
def parseLogData (d : List Nat) : Nat × Nat × List Nat :=
  (d.headD 0, fromLE ((d.drop 1).take 8), d.drop 9)

/-- One step of the recovery fold (timelock.go lines 462-468): a record
with delete-bit 1 removes the key from the map, any other record (re)binds
the key to its payload. -/
def recoverStep (log : List (Nat × List Nat)) (d : List Nat) :
    List (Nat × List Nat) :=
  let p := parseLogData d
  if p.1 = 1 then aerase log p.2.1 else ainsert log p.2.1 p.2.2

/-- The key-value map accumulated by `startRecover` over all recovered
records (one shared map across all WRITTEN groups, in log order). -/
def recoverLog (rs : List (List Nat)) : List (Nat × List Nat) :=
  rs.foldl recoverStep []

/-- The recovery replay: after `Reset` (which truncates the WAL and leaves
the memdb untouched), `startRecover` re-issues `Put` for every surviving
binding; all recovery Puts land in the current tiny-batch's single block. -/
def replayBlock (rs : List (List Nat)) : _Block :=
  (recoverLog rs).foldl (fun b kv => b.put (iKey false kv.1) kv.2) newBlock

/-- Specification-side step of executing one original put/delete operation
directly on a key→value store: a delete removes the key, a put (re)binds
it. -/
def specStep (m : Nat → Option (List Nat)) (r : Nat × Nat × List Nat) :
    Nat → Option (List Nat) :=
  fun k =>
    if r.1 = 1 then (if r.2.1 = k then none else m k)
    else (if r.2.1 = k then some r.2.2 else m k)

/-- Specification-side direct execution of a sequence of parsed put/delete
operations, starting from the empty store. -/
def specDirectKV (ops : List (Nat × Nat × List Nat)) : Nat → Option (List Nat) :=
  ops.foldl specStep (fun _ => none)

/-! ## WAL reader (src/wal/reader.go lines 56-137)

`Reader.Read` iterates the recovered groups, invoking the caller's function
on each WRITTEN group and flipping it to RELEASED in place; a deferred
assignment `r.wal.recoveredLogs = r.wal.recoveredLogs[:0]` empties the
recovered-log list on every return path.  Buffer, file reads and header
writes are modelled error-free (their failures are I/O); the callback's
stop/error outcome is the function argument `f`. -/

/-- Modelled from the spec: the `LogStatus` constants WRITTEN, APPLIED and
RELEASED of wal.go (not under src/), as three distinct values. -/
def logStatusWritten : Nat := 0

/-- Modelled from the spec: status APPLIED. -/
def logStatusApplied : Nat := 1

/-- Modelled from the spec: status RELEASED. -/
def logStatusReleased : Nat := 2

/-- `_Segments.freeSize(offset)` (WAL file.go lines 86-97). -/
def _Segments.freeSize (sg : _Segments) (offset : Int) : Nat :=
  if offset = sg.seg0.offset then sg.seg0.size
  else if offset = sg.seg1.offset then sg.seg1.size
  else if offset = sg.seg2.offset then sg.seg2.size
  else 0

def defaultLogInfo : _LogInfo :=
  { version := 0, status := 0, timeID := 0, entryCount := 0, size := 0, offset := 0 }

/-- The WAL state visible to `Reader.Read`. -/
structure WALState where
  recoveredLogs : List _LogInfo
  fileSize : Int
  bufferSize : Int
  segments : _Segments
  deriving Repr, DecidableEq

/-- The mutable locals of the read loop, together with the callback
invocations (`calls`) and the in-place status writes to the log file
(`writes`). -/
structure InnerState where
  logs : List _LogInfo
  idx : Nat
  offset : Int
  fileOff : Int
  size : Int
  calls : List Int
  writes : List (Int × _LogInfo)
  deriving Repr, DecidableEq

inductive InnerExit where
  | exitErr (err : Option Unit)
  | exitResize
  | exitDone
  deriving Repr, DecidableEq

/-- The inner `for i := idx; i < l; i++` loop of `Read` (reader.go lines
94-128), stepping one group at a time: skip empty or non-WRITTEN groups,
break to refill the buffer when the group does not fit, otherwise invoke
the callback and flip the group to RELEASED in place.  `fuel` is always
called with `l - idx`, so exhaustion coincides with `i` reaching `l`. -/
def readInner (sg : _Segments) (fileSize : Int) (f : Int → Bool × Option Unit)
    (l : Nat) : Nat → InnerState → InnerState × InnerExit
  | 0, st => (st, InnerExit.exitDone)
  | fuel + 1, st =>
    if l ≤ st.idx then (st, InnerExit.exitDone)
    else
      let ul := st.logs.getD st.idx defaultLogInfo
      if ul.entryCount = 0 ∨ ul.status ≠ logStatusWritten then
        readInner sg fileSize f l fuel
          { st with
            offset := st.offset + ul.size + (sg.freeSize (ul.offset + ul.size) : Int)
            idx := st.idx + 1 }
      else if st.size < (ul.size : Int) then
        ({ st with size := (ul.size : Int) }, InnerExit.exitResize)
      else if st.size - st.offset < (ul.size : Int) then
        ({ st with fileOff := ul.offset, size := fileSize - ul.offset },
          InnerExit.exitResize)
      else
        let fr := f ul.timeID
        let st1 := { st with calls := st.calls ++ [ul.timeID] }
        if fr.1 ∨ fr.2.isSome then (st1, InnerExit.exitErr fr.2)
        else
          let ul2 := { ul with status := logStatusReleased }
          readInner sg fileSize f l fuel
            { st1 with
              logs := st1.logs.set st1.idx ul2
              writes := st1.writes ++ [(ul.offset, ul2)]
              offset := st1.offset + ul.size + (sg.freeSize (ul.offset + ul.size) : Int)
              idx := st1.idx + 1 }

inductive OuterExit where
  | okDone
  | erred (err : Option Unit)
  | fuelOut
  deriving Repr, DecidableEq

/-- The outer `for { ... }` loop of `Read` (lines 84-132): reset the buffer
window (`offset = 0`), run the inner loop, and either return the callback
error, finish when `idx == l`, or go round again after a resize. -/
def readOuter (sg : _Segments) (fileSize : Int) (f : Int → Bool × Option Unit)
    (l : Nat) : Nat → InnerState → InnerState × OuterExit
  | 0, st => (st, OuterExit.fuelOut)
  | fuel + 1, st =>
    let r := readInner sg fileSize f l (l - st.idx) { st with offset := 0 }
    match r.2 with
    | InnerExit.exitErr e => (r.1, OuterExit.erred e)
    | InnerExit.exitDone => (r.1, OuterExit.okDone)
    | InnerExit.exitResize => readOuter sg fileSize f l fuel r.1

/-- What `Reader.Read` leaves behind: the WAL's recovered-log list, the
return value, the callback invocations, the in-place status writes, and
whether the trailing `writeHeader` ran. -/
structure ReadResult where
  recoveredLogs : List _LogInfo
  err : Option Unit
  calls : List Int
  statusWrites : List (Int × _LogInfo)
  headerWritten : Bool
  deriving Repr, DecidableEq

/-- `Reader.Read` (reader.go lines 56-137).  The pre-scan removes groups
already RELEASED; the deferred `r.wal.recoveredLogs =
r.wal.recoveredLogs[:0]` empties the recovered-log list on every return,
which the wrapper applies unconditionally to whatever the body produced. -/
def readerRead (w : WALState) (f : Int → Bool × Option Unit) : ReadResult :=
  let logs1 := w.recoveredLogs.filter (fun lg => lg.status != logStatusReleased)
  let l := logs1.length
  let body : Option Unit × List Int × List (Int × _LogInfo) × Bool :=
    if l = 0 then (none, [], [], false)
    else
      let fileOff := (logs1.headD defaultLogInfo).offset
      let size0 := w.fileSize - fileOff
      let size := if size0 > w.bufferSize then w.bufferSize else size0
      let r := readOuter w.segments w.fileSize f l (2 * l + 1)
        { logs := logs1, idx := 0, offset := 0, fileOff := fileOff,
          size := size, calls := [], writes := [] }
      match r.2 with
      | OuterExit.okDone => (none, r.1.calls, r.1.writes, true)
      | OuterExit.erred e => (e, r.1.calls, r.1.writes, false)
      | OuterExit.fuelOut => (none, r.1.calls, r.1.writes, false)
  { recoveredLogs := []
    err := body.1
    calls := body.2.1
    statusWrites := body.2.2.1
    headerWritten := body.2.2.2 }

/-- The result of a `Read` that found nothing to do: no error, no callback
invocations, no status writes, and no header write. -/
def emptyReadResult : ReadResult :=
  { recoveredLogs := []
    err := none
    calls := []
    statusWrites := []
    headerWritten := false }

/-- A WAL with two WRITTEN groups (timeIDs 7 and 8). -/
def walTwoGroups : WALState :=
  { recoveredLogs :=
      [{ version := 1, status := 0, timeID := 7, entryCount := 2, size := 40,
         offset := 47 },
       { version := 1, status := 0, timeID := 8, entryCount := 1, size := 30,
         offset := 87 }]
    fileSize := 117
    bufferSize := 1024
    segments :=
      { seg0 := { offset := 1, size := 0 }
        seg1 := { offset := 1, size := 0 }
        seg2 := { offset := 1, size := 0 } } }

/-- A callback that accepts every group except timeID 8, which it
rejects with an error. -/
def rejectGroup8 : Int → Bool × Option Unit :=
  fun t => if t = 8 then (true, some ()) else (false, none)

/-- The first group of `walTwoGroups` after its status is flipped to
RELEASED in place. -/
def walTwoGroupsReleased0 : _LogInfo :=
  { version := 1, status := logStatusReleased, timeID := 7, entryCount := 2,
    size := 40, offset := 47 }

/-- A WAL with one WRITTEN group of two entries. -/
def walOneGroup : WALState :=
  { recoveredLogs :=
      [{ version := 1, status := 0, timeID := 7, entryCount := 2, size := 40,
         offset := 47 }]
    fileSize := 87
    bufferSize := 1024
    segments :=
      { seg0 := { offset := 47, size := 0 }
        seg1 := { offset := 47, size := 0 }
        seg2 := { offset := 0, size := 0 } } }

/-- The same WAL after its recovered logs have been drained. -/
def walDrained : WALState := { walOneGroup with recoveredLogs := [] }

/-! ## Theorems -/

theorem alookup_nil {α β : Type} [DecidableEq α] (k : α) :
    alookup ([] : List (α × β)) k = none := rfl

theorem alookup_cons {α β : Type} [DecidableEq α] (k1 k : α) (v : β)
    (t : List (α × β)) :
    alookup ((k1, v) :: t) k = if k1 = k then some v else alookup t k := rfl

theorem ainsert_nil {α β : Type} [DecidableEq α] (k : α) (v : β) :
    ainsert ([] : List (α × β)) k v = [(k, v)] := rfl

theorem ainsert_cons {α β : Type} [DecidableEq α] (k1 k : α) (v1 v : β)
    (t : List (α × β)) :
    ainsert ((k1, v1) :: t) k v =
      if k1 = k then (k, v) :: t else (k1, v1) :: ainsert t k v := rfl

theorem aerase_nil {α β : Type} [DecidableEq α] (k : α) :
    aerase ([] : List (α × β)) k = [] := rfl

theorem aerase_cons {α β : Type} [DecidableEq α] (k1 k : α) (v1 : β)
    (t : List (α × β)) :
    aerase ((k1, v1) :: t) k = if k1 = k then t else (k1, v1) :: aerase t k := rfl

theorem akeys_nil {α β : Type} : akeys ([] : List (α × β)) = [] := rfl

theorem akeys_cons {α β : Type} (k1 : α) (v1 : β) (t : List (α × β)) :
    akeys ((k1, v1) :: t) = k1 :: akeys t := rfl

theorem alookup_eq_none_of_not_mem {α β : Type} [DecidableEq α]
    (l : List (α × β)) (k : α) : k ∉ akeys l → alookup l k = none := by
  induction l with
  | nil => intro _; rfl
  | cons hd t ih =>
    obtain ⟨k1, v1⟩ := hd
    intro h
    rw [akeys_cons, List.mem_cons, not_or] at h
    rw [alookup_cons, if_neg (fun e => h.1 e.symm)]
    exact ih h.2

theorem mem_akeys_ainsert {α β : Type} [DecidableEq α]
    (l : List (α × β)) (k a : α) (v : β) :
    a ∈ akeys (ainsert l k v) → a ∈ akeys l ∨ a = k := by
  induction l with
  | nil =>
    intro h
    rw [ainsert_nil, akeys_cons] at h
    rcases List.mem_cons.mp h with h | h
    · exact Or.inr h
    · simp [akeys_nil] at h
  | cons hd t ih =>
    obtain ⟨k1, v1⟩ := hd
    intro h
    rw [ainsert_cons] at h
    by_cases h1 : k1 = k
    · rw [if_pos h1, akeys_cons] at h
      rcases List.mem_cons.mp h with h | h
      · exact Or.inr h
      · exact Or.inl (List.mem_cons.mpr (Or.inr h))
    · rw [if_neg h1, akeys_cons] at h
      rcases List.mem_cons.mp h with h | h
      · exact Or.inl (List.mem_cons.mpr (Or.inl h))
      · rcases ih h with h2 | h2
        · exact Or.inl (List.mem_cons.mpr (Or.inr h2))
        · exact Or.inr h2

theorem mem_akeys_aerase {α β : Type} [DecidableEq α]
    (l : List (α × β)) (k a : α) : a ∈ akeys (aerase l k) → a ∈ akeys l := by
  induction l with
  | nil => intro h; simpa [aerase_nil] using h
  | cons hd t ih =>
    obtain ⟨k1, v1⟩ := hd
    intro h
    rw [aerase_cons] at h
    by_cases h1 : k1 = k
    · rw [if_pos h1] at h
      exact List.mem_cons.mpr (Or.inr h)
    · rw [if_neg h1, akeys_cons] at h
      rcases List.mem_cons.mp h with h | h
      · exact List.mem_cons.mpr (Or.inl h)
      · exact List.mem_cons.mpr (Or.inr (ih h))

theorem alookup_ainsert {α β : Type} [DecidableEq α] (l : List (α × β)) (k k1 : α)
    (v : β) : alookup (ainsert l k v) k1 = if k = k1 then some v else alookup l k1 := by
  induction l with
  | nil => rw [ainsert_nil, alookup_cons, alookup_nil]
  | cons hd t ih =>
    obtain ⟨k2, v2⟩ := hd
    rw [ainsert_cons]
    by_cases h2 : k2 = k
    · rw [if_pos h2, alookup_cons, alookup_cons]
      subst h2
      by_cases h1 : k2 = k1
      · simp only [if_pos h1]
      · simp only [if_neg h1]
    · rw [if_neg h2, alookup_cons, alookup_cons, ih]
      by_cases h1 : k2 = k1
      · subst h1
        simp only [if_pos rfl, if_neg (fun e : k = k2 => h2 e.symm)]
      · simp only [if_neg h1]

theorem alookup_aerase {α β : Type} [DecidableEq α] (l : List (α × β)) (k k1 : α) :
    (akeys l).Nodup →
      alookup (aerase l k) k1 = if k = k1 then none else alookup l k1 := by
  induction l with
  | nil => intro _; rw [aerase_nil, alookup_nil]; simp
  | cons hd t ih =>
    obtain ⟨k2, v2⟩ := hd
    intro hnd
    rw [akeys_cons, List.nodup_cons] at hnd
    obtain ⟨hnotin, hnd2⟩ := hnd
    rw [aerase_cons]
    by_cases h2 : k2 = k
    · subst h2
      rw [if_pos rfl, alookup_cons]
      by_cases h1 : k2 = k1
      · rw [if_pos h1]
        subst h1
        exact alookup_eq_none_of_not_mem t k2 hnotin
      · rw [if_neg h1, if_neg h1]
    · rw [if_neg h2, alookup_cons, alookup_cons, ih hnd2]
      by_cases h1 : k2 = k1
      · subst h1
        rw [if_pos rfl, if_pos rfl, if_neg (fun e => h2 e.symm)]
      · rw [if_neg h1, if_neg h1]

theorem akeys_ainsert_nodup {α β : Type} [DecidableEq α] (l : List (α × β)) (k : α)
    (v : β) : (akeys l).Nodup → (akeys (ainsert l k v)).Nodup := by
  induction l with
  | nil => intro _; simp [ainsert_nil, akeys]
  | cons hd t ih =>
    obtain ⟨k2, v2⟩ := hd
    intro hnd
    rw [akeys_cons, List.nodup_cons] at hnd
    obtain ⟨hnotin, hnd2⟩ := hnd
    rw [ainsert_cons]
    by_cases h2 : k2 = k
    · subst h2
      rw [if_pos rfl, akeys_cons, List.nodup_cons]
      exact ⟨hnotin, hnd2⟩
    · rw [if_neg h2, akeys_cons, List.nodup_cons]
      refine ⟨fun hmem => ?_, ih hnd2⟩
      rcases mem_akeys_ainsert t k k2 v hmem with h3 | h3
      · exact hnotin h3
      · exact h2 h3

theorem akeys_aerase_nodup {α β : Type} [DecidableEq α] (l : List (α × β)) (k : α) :
    (akeys l).Nodup → (akeys (aerase l k)).Nodup := by
  induction l with
  | nil => intro _; simp [aerase_nil, akeys]
  | cons hd t ih =>
    obtain ⟨k2, v2⟩ := hd
    intro hnd
    rw [akeys_cons, List.nodup_cons] at hnd
    obtain ⟨hnotin, hnd2⟩ := hnd
    rw [aerase_cons]
    by_cases h2 : k2 = k
    · rw [if_pos h2]; exact hnd2
    · rw [if_neg h2, akeys_cons, List.nodup_cons]
      exact ⟨fun hmem => hnotin (mem_akeys_aerase t k k2 hmem), ih hnd2⟩

theorem toLE_length (w n : Nat) : (toLE w n).length = w := by
  induction w generalizing n with
  | zero => rfl
  | succ w ih => simpa [toLE] using ih (n / 256)

theorem fromLE_toLE (w n : Nat) : fromLE (toLE w n) = n % 256 ^ w := by
  induction w generalizing n with
  | zero => simp [toLE, fromLE, Nat.mod_one]
  | succ w ih =>
    have h : (256 : Nat) ^ (w + 1) = 256 * 256 ^ w := by ring
    have hd : (256 : Nat) ∣ 256 * 256 ^ w := ⟨256 ^ w, rfl⟩
    rw [toLE, fromLE, ih, h, ← Nat.mod_mul_right_div_self, ← Nat.mod_mod_of_dvd n hd]
    exact Nat.mod_add_div _ _

theorem fromLE_toLE_of_lt {w n : Nat} (h : n < 256 ^ w) : fromLE (toLE w n) = n := by
  rw [fromLE_toLE, Nat.mod_eq_of_lt h]

theorem writeAt_append_right (d x p : List Nat) (j : Nat) :
    writeAt (d ++ x) p (d.length + j) = d ++ writeAt x p j := by
  unfold writeAt
  rw [List.take_append_eq_append_take, List.drop_append_eq_append_drop]
  have h1 : d.length + j - d.length = j := by omega
  have h2 : d.length + j + p.length - d.length = j + p.length := by omega
  rw [List.take_of_length_le (by omega), List.drop_eq_nil_of_le (by omega), h1, h2]
  simp

theorem writeAt_replicate_zero (p : List Nat) (n a : Nat) :
    writeAt (List.replicate n a) p 0 = p ++ List.replicate (n - p.length) a := by
  unfold writeAt
  simp [List.drop_replicate]

theorem readRaw_append_left (s t : List Nat) (off len : Nat)
    (h : off + len ≤ s.length) : readRaw (s ++ t) off len = readRaw s off len := by
  unfold readRaw
  rw [List.drop_append_eq_append_drop, List.take_append_eq_append_take]
  have hl : (s.drop off).length = s.length - off := by simp
  rw [hl]
  have h0 : len - (s.length - off) = 0 := by omega
  rw [h0, List.take_zero, List.append_nil]

theorem readRaw_append_exact (d f : List Nat) :
    readRaw (d ++ f) d.length f.length = f := by
  unfold readRaw
  rw [List.drop_left, List.take_of_length_le (le_refl _)]

theorem readRaw_take (s : List Nat) (off a b : Nat) (h : a ≤ b) :
    readRaw s off a = (readRaw s off b).take a := by
  unfold readRaw
  rw [List.take_take, Nat.min_eq_left h]

theorem alookup_mem {α β : Type} [DecidableEq α] (l : List (α × β)) (k : α) (v : β) :
    alookup l k = some v → (k, v) ∈ l := by
  induction l with
  | nil => intro h; simp [alookup_nil] at h
  | cons hd t ih =>
    obtain ⟨k1, v1⟩ := hd
    intro h
    rw [alookup_cons] at h
    by_cases h1 : k1 = k
    · rw [if_pos h1] at h
      subst h1
      cases h
      exact List.mem_cons_self _ _
    · rw [if_neg h1] at h
      exact List.mem_cons_of_mem _ (ih h)

theorem mem_ainsert {α β : Type} [DecidableEq α] (l : List (α × β)) (k : α) (v : β)
    (kv : α × β) : kv ∈ ainsert l k v → kv ∈ l ∨ kv = (k, v) := by
  induction l with
  | nil =>
    intro h
    rw [ainsert_nil] at h
    rcases List.mem_cons.mp h with h | h
    · exact Or.inr h
    · simp at h
  | cons hd t ih =>
    obtain ⟨k1, v1⟩ := hd
    intro h
    rw [ainsert_cons] at h
    by_cases h1 : k1 = k
    · rw [if_pos h1] at h
      rcases List.mem_cons.mp h with h | h
      · exact Or.inr h
      · exact Or.inl (List.mem_cons_of_mem _ h)
    · rw [if_neg h1] at h
      rcases List.mem_cons.mp h with h | h
      · exact Or.inl (List.mem_cons.mpr (Or.inl h))
      · rcases ih h with h2 | h2
        · exact Or.inl (List.mem_cons.mpr (Or.inr h2))
        · exact Or.inr h2

theorem tmInv_step (s0 : Int) (tm : _TimeMark) (op : TMOp) (h : tmInv s0 tm) :
    tmInv s0 (tmStep tm op) := by
  obtain ⟨hstamp, hrel⟩ := h
  cases op with
  | add t =>
    exact ⟨hstamp, hrel⟩
  | release t =>
    simp only [tmStep, _TimeMark.release]
    cases hl : alookup tm.records t with
    | none => exact ⟨hstamp, hrel⟩
    | some r =>
      by_cases hr : r.refs - 1 > 0
      · simp only [if_pos hr]
        exact ⟨hstamp, hrel⟩
      · simp only [if_neg hr]
        refine ⟨hstamp, fun kv hkv => ?_⟩
        rcases mem_ainsert _ _ _ _ hkv with h2 | h2
        · exact hrel kv h2
        · subst h2; exact hstamp
  | expirer nowNs =>
    refine ⟨hstamp, fun kv hkv => ?_⟩
    exact hrel kv (List.mem_filter.mp hkv).1

theorem tmInv_run (s0 : Int) (tm : _TimeMark) (ops : List TMOp) (h : tmInv s0 tm) :
    tmInv s0 (tmRun tm ops) := by
  induction ops generalizing tm with
  | nil => exact h
  | cons op rest ih => exact ih (tmStep tm op) (tmInv_step s0 tm op h)

theorem isReleased_false_of_tmInv (s0 : Int) (tm : _TimeMark) (t : Int)
    (h : tmInv s0 tm) : tm.isReleased t = false := by
  obtain ⟨hstamp, hrel⟩ := h
  unfold _TimeMark.isReleased
  cases hl : alookup tm.releasedRecords t with
  | none => rfl
  | some r =>
    by_cases hr : r.refs = -1
    · simp [hr]
    · simp only [if_neg hr]
      have hmem := alookup_mem _ _ _ hl
      have hlu : r.lastUnref = s0 := hrel (t, r) hmem
      unfold _TimeRecord.isReleasedRec
      rw [hlu, hstamp]
      simp

/-- C2: the claim says `add(t)` on a present timeID with refcount `r` leaves
refcount `r + 1`.  In the source the increment happens on a discarded local
copy and the map is overwritten with refcount 1: starting from refcount 2,
`add 5` leaves refcount 1, not 3. -/
theorem add_resets_refcount_to_one :
    alookup tmRefcountExample.records 5 = some { refs := 2, lastUnref := 0 } ∧
    alookup (tmRefcountExample.add 5).records 5 = some { refs := 1, lastUnref := 0 } := by
  exact ⟨rfl, rfl⟩

/-- C3: the claim says `startExpirer` evicts a released record exactly when
`lastUnref + durations` is at most the current wall-clock time in
nanoseconds.  At wall-clock 1600000002000000000 (whose sub-second nanosecond
component is 0) the record stamped 1600000000000000000 with a one-second
duration is expired in the claimed sense, yet the source compares against
`time.Now().Nanosecond()` — here 0 — and retains it. -/
theorem startExpirer_retains_wall_clock_expired_record :
    (1600000000000000000 : Int) + tmExpiryExample.durations ≤ 1600000002000000000 ∧
    (1600000002000000000 : Int) % 1000000000 = 0 ∧
    (tmExpiryExample.startExpirer 0).releasedRecords = tmExpiryExample.releasedRecords := by
  refine ⟨by norm_num [tmExpiryExample], by norm_num, ?_⟩
  rfl

/-- C5 counterexample: right after `release 5` has moved timeID 5 into
`releasedRecords`, `isReleased 5` is already false — the record is stamped
with the current `timeRecord.lastUnref` and `isReleased` demands a strictly
older stamp — contradicting the claim that it stays true from that point on. -/
theorem isReleased_false_after_release_counterexample :
    alookup tmAddRelease.releasedRecords 5 = some { refs := 0, lastUnref := 100 } ∧
    tmAddRelease.isReleased 5 = false := by
  exact ⟨rfl, rfl⟩

/-- C5 (amended): along any sequence of `add`/`release`/`startExpirer`
operations from a fresh time-mark, `isReleased t` is false at every state —
in particular while `t`'s refcount has not dropped to zero, but also after
`release(t)`, because `release` stamps the record with the current
`timeRecord.lastUnref` and `isReleased` requires a strictly older stamp.
`isReleased t` becomes true only once `newTimeRecord` advances the
time-mark's stamp past the release stamp of a non-aborted record. -/
theorem isReleased_requires_newTimeRecord :
    (∀ (dur s0 : Int) (ops : List TMOp) (t : Int),
      (tmRun (newTimeMark dur s0) ops).isReleased t = false) ∧
    (∀ (tm : _TimeMark) (t : Int) (r : _TimeRecord) (s1 : Int),
      alookup tm.releasedRecords t = some r → r.refs ≠ -1 →
      0 < r.lastUnref → r.lastUnref < s1 →
      (tm.newTimeRecord s1).isReleased t = true) := by
  constructor
  · intro dur s0 ops t
    refine isReleased_false_of_tmInv s0 _ t (tmInv_run s0 _ ops ?_)
    exact ⟨rfl, fun kv hkv => by simp [newTimeMark] at hkv⟩
  · intro tm t r s1 hl hr h0 hs
    unfold _TimeMark.isReleased _TimeMark.newTimeRecord
    simp only [hl, if_neg hr]
    unfold _TimeRecord.isReleasedRec
    simp only [decide_eq_true_eq, Bool.and_eq_true]
    exact ⟨by simpa using h0, by simpa using hs⟩

theorem int64ofUInt_uint64ofInt (x : Int) (h1 : -(2 ^ 63) ≤ x) (h2 : x < 2 ^ 63) :
    int64ofUInt (uint64ofInt x) = x := by
  unfold uint64ofInt int64ofUInt
  split_ifs with h
  · omega
  · omega

/-- Witness for the amended C5 theorem at concrete inputs: the trace
`add 5; release 5` from a fresh mark stamped 100 never shows `isReleased`,
and advancing the stamp to 200 via `newTimeRecord` makes `isReleased 5`
true. -/
theorem isReleased_requires_newTimeRecord_witness :
    (tmRun (newTimeMark 0 100) [TMOp.add 5, TMOp.release 5]).isReleased 5 = false ∧
    (tmAddRelease.newTimeRecord 200).isReleased 5 = true := by
  constructor
  · exact isReleased_requires_newTimeRecord.1 0 100 [TMOp.add 5, TMOp.release 5] 5
  · exact isReleased_requires_newTimeRecord.2 tmAddRelease 5
      { refs := 0, lastUnref := 100 } 200 rfl (by decide) (by decide) (by decide)

theorem readRaw_append_right (d x : List Nat) (j len : Nat) :
    readRaw (d ++ x) (d.length + j) len = readRaw x j len := by
  unfold readRaw
  rw [List.drop_append_eq_append_drop, List.drop_eq_nil_of_le (by omega),
    Nat.add_sub_cancel_left]
  rfl

theorem readRaw_append_start (d x : List Nat) (len : Nat) :
    readRaw (d ++ x) d.length len = readRaw x 0 len := by
  simpa using readRaw_append_right d x 0 len

theorem readRaw_self_prefix (a b : List Nat) : readRaw (a ++ b) 0 a.length = a := by
  unfold readRaw
  rw [List.drop_zero, List.take_left]

theorem readRaw_zero_take (x : List Nat) (len : Nat) : readRaw x 0 len = x.take len := by
  unfold readRaw
  rw [List.drop_zero]

theorem readRaw_zero_full (x : List Nat) : readRaw x 0 x.length = x := by
  rw [readRaw_zero_take, List.take_of_length_le (le_refl _)]

theorem uint64ofInt_lt (x : Int) : uint64ofInt x < 2 ^ 64 := by
  unfold uint64ofInt
  omega

/-- Slicing a concatenation of six byte strings of the header layout
2 + 2 + 8 + 4 + 4 + 8 recovers each part. -/
theorem readRaw_concat6 (a b c d e f : List Nat)
    (ha : a.length = 2) (hb : b.length = 2) (hc : c.length = 8)
    (hd : d.length = 4) (he : e.length = 4) (hf : f.length = 8) :
    readRaw (a ++ b ++ c ++ d ++ e ++ f) 0 2 = a ∧
    readRaw (a ++ b ++ c ++ d ++ e ++ f) 2 2 = b ∧
    readRaw (a ++ b ++ c ++ d ++ e ++ f) 4 8 = c ∧
    readRaw (a ++ b ++ c ++ d ++ e ++ f) 12 4 = d ∧
    readRaw (a ++ b ++ c ++ d ++ e ++ f) 16 4 = e ∧
    readRaw (a ++ b ++ c ++ d ++ e ++ f) 20 8 = f := by
  refine ⟨?_, ?_, ?_, ?_, ?_, ?_⟩
  · rw [List.append_assoc, List.append_assoc, List.append_assoc, List.append_assoc,
      ← ha, readRaw_self_prefix]
  · rw [List.append_assoc, List.append_assoc, List.append_assoc, List.append_assoc]
    nth_rewrite 1 [← ha]
    rw [readRaw_append_start, ← hb, readRaw_self_prefix]
  · rw [List.append_assoc, List.append_assoc, List.append_assoc]
    have hab : (a ++ b).length = 4 := by simp [ha, hb]
    rw [← hab, readRaw_append_start, ← hc, readRaw_self_prefix]
  · rw [List.append_assoc, List.append_assoc]
    have habc : (a ++ b ++ c).length = 12 := by simp [ha, hb, hc]
    rw [← habc, readRaw_append_start, ← hd, readRaw_self_prefix]
  · rw [List.append_assoc]
    have habcd : (a ++ b ++ c ++ d).length = 16 := by simp [ha, hb, hc, hd]
    rw [← habcd, readRaw_append_start, ← he, readRaw_self_prefix]
  · have habcde : (a ++ b ++ c ++ d ++ e).length = 20 := by simp [ha, hb, hc, hd, he]
    rw [← habcde, readRaw_append_start, ← hf, readRaw_zero_full]

/-- C8: the WAL group header round-trips through its 28-byte little-endian
encoding.  For every `_LogInfo` with fields in the ranges of their Go types,
`MarshalBinary` produces exactly 28 bytes laid out as
`{version:u16, status:u16, timeID:i64, entryCount:u32, size:u32, offset:i64}`
little-endian, and `UnmarshalBinary` of that buffer restores all six
fields. -/
theorem logInfo_marshal_roundtrip (l : _LogInfo)
    (hv : l.version < 2 ^ 16) (hs : l.status < 2 ^ 16)
    (hec : l.entryCount < 2 ^ 32) (hsz : l.size < 2 ^ 32)
    (ht1 : -(2 ^ 63) ≤ l.timeID) (ht2 : l.timeID < 2 ^ 63)
    (ho1 : -(2 ^ 63) ≤ l.offset) (ho2 : l.offset < 2 ^ 63) :
    l.MarshalBinary.length = logHeaderSize ∧
    _LogInfo.UnmarshalBinary l.MarshalBinary = l := by
  constructor
  · simp [_LogInfo.MarshalBinary, toLE_length, logHeaderSize]
  · obtain ⟨r0, r2, r4, r12, r16, r20⟩ :=
      readRaw_concat6 (toLE 2 l.version) (toLE 2 l.status)
        (toLE 8 (uint64ofInt l.timeID)) (toLE 4 l.entryCount) (toLE 4 l.size)
        (toLE 8 (uint64ofInt l.offset)) (toLE_length _ _) (toLE_length _ _)
        (toLE_length _ _) (toLE_length _ _) (toLE_length _ _) (toLE_length _ _)
    unfold _LogInfo.UnmarshalBinary _LogInfo.MarshalBinary
    rw [r0, r2, r4, r12, r16, r20]
    rw [fromLE_toLE_of_lt (lt_of_lt_of_le hv (by norm_num)),
      fromLE_toLE_of_lt (lt_of_lt_of_le hs (by norm_num)),
      fromLE_toLE_of_lt (lt_of_lt_of_le (uint64ofInt_lt l.timeID) (by norm_num)),
      fromLE_toLE_of_lt (lt_of_lt_of_le hec (by norm_num)),
      fromLE_toLE_of_lt (lt_of_lt_of_le hsz (by norm_num)),
      fromLE_toLE_of_lt (lt_of_lt_of_le (uint64ofInt_lt l.offset) (by norm_num)),
      int64ofUInt_uint64ofInt l.timeID ht1 ht2,
      int64ofUInt_uint64ofInt l.offset ho1 ho2]

/-- Witness for C8 at a concrete header value. -/
theorem logInfo_marshal_roundtrip_witness :
    (_LogInfo.MarshalBinary
        { version := 1, status := 2, timeID := -5, entryCount := 1000,
          size := 4096, offset := 47 }).length = logHeaderSize ∧
    _LogInfo.UnmarshalBinary
        (_LogInfo.MarshalBinary
          { version := 1, status := 2, timeID := -5, entryCount := 1000,
            size := 4096, offset := 47 }) =
      { version := 1, status := 2, timeID := -5, entryCount := 1000,
        size := 4096, offset := 47 } := by
  exact logInfo_marshal_roundtrip
    { version := 1, status := 2, timeID := -5, entryCount := 1000,
      size := 4096, offset := 47 }
    (by norm_num) (by norm_num) (by norm_num) (by norm_num)
    (by norm_num) (by norm_num) (by norm_num) (by norm_num)

/-- C6: for every segmented-file state and every `size > 0` (within the
`uint32` range of the Go argument), `allocate` extends the file and returns
the old end-of-file offset when `targetSize > file.size + size` or segment
1 is smaller than `size`; otherwise it returns segment 1's head offset and
shrinks segment 1 by `size` (offset advanced by `size`, size reduced by
`size`), leaving the other segments and the file size unchanged. -/
theorem file_allocate_spec (f : _File) (sz : Nat) (h0 : 0 < sz)
    (h32 : sz < 2 ^ 32) (hseg : f.segments.seg1.size < 2 ^ 32) :
    (f.targetSize > f.size + sz ∨ f.segments.currSize < sz →
      f.allocate sz = some (f.size,
        { f with size := f.size + sz })) ∧
    (¬ (f.targetSize > f.size + sz ∨ f.segments.currSize < sz) →
      f.allocate sz = some (f.segments.seg1.offset,
        { f with segments := { f.segments with
            seg1 := { offset := f.segments.seg1.offset + sz,
                      size := f.segments.seg1.size - sz } } })) := by
  constructor
  · intro hcond
    unfold _File.allocate
    rw [if_neg (Nat.pos_iff_ne_zero.mp h0), if_pos hcond]
  · intro hcond
    unfold _File.allocate
    rw [if_neg (Nat.pos_iff_ne_zero.mp h0), if_neg hcond]
    have hge : sz ≤ f.segments.seg1.size := by
      unfold _Segments.currSize at hcond
      omega
    have hsub : usub32 f.segments.seg1.size sz = f.segments.seg1.size - sz := by
      unfold usub32
      rw [Nat.mod_eq_of_lt h32]
      omega
    simp only [_Segments.allocate, hsub]

/-- Witness for C6 exercising both branches at concrete states. -/
theorem file_allocate_spec_witness :
    fileExtendExample.allocate 10 =
      some (100, { fileExtendExample with size := 110 }) ∧
    fileCarveExample.allocate 10 =
      some (60, { fileCarveExample with segments :=
        { fileCarveExample.segments with seg1 := { offset := 70, size := 40 } } }) := by
  constructor
  · exact (file_allocate_spec fileExtendExample 10 (by norm_num)
      (by norm_num) (by norm_num [fileExtendExample])).1
      (by norm_num [_Segments.currSize, fileExtendExample])
  · exact (file_allocate_spec fileCarveExample 10 (by norm_num)
      (by norm_num) (by norm_num [fileCarveExample])).2
      (by norm_num [_Segments.currSize, fileCarveExample])

/-- C7: every entry whose processing completes without error carries a
non-zero sequence (the panic guard makes a zero sequence impossible in any
`ok` outcome), and when the sequence is generated by the DB — no caller ID,
so it comes from a lease slot (nonzero, being the sequence of a previously
stored message) or from `nextSeq` on a non-saturated counter — the panic
branch is unreachable. -/
theorem setEntry_seq_nonzero (i : SeqChoiceInput) :
    (∀ s ns, setEntrySeq i = SeqOutcome.ok s ns → s ≠ 0) ∧
    (i.idSeq = none → (∀ s, i.leaseSlot = some s → s ≠ 0) →
      i.sequence < 2 ^ 64 - 1 →
      ∃ s ns, setEntrySeq i = SeqOutcome.ok s ns ∧ s ≠ 0) := by
  constructor
  · intro s ns h
    unfold setEntrySeq at h
    by_cases hz : (match i.idSeq with
      | some s => (s, i.sequence)
      | none =>
        match i.leaseSlot with
        | some s => (s, i.sequence)
        | none => (nextSeq i.sequence, nextSeq i.sequence)).1 = 0
    · rw [if_pos hz] at h
      cases h
    · rw [if_neg hz] at h
      cases h
      exact hz
  · intro hid hlease hcnt
    unfold setEntrySeq
    rw [hid]
    cases hl : i.leaseSlot with
    | none =>
      have hnz : nextSeq i.sequence ≠ 0 := by
        unfold nextSeq
        omega
      exact ⟨nextSeq i.sequence, nextSeq i.sequence, by rw [if_neg hnz], hnz⟩
    | some s =>
      have hnz : s ≠ 0 := hlease s hl
      exact ⟨s, i.sequence, by rw [if_neg hnz], hnz⟩

/-- Witness for C7: a DB-generated sequence (no ID, no lease slot) from
counter 0 yields sequence 1, and the panic branch is not taken. -/
theorem setEntry_seq_nonzero_witness :
    (∀ s ns, setEntrySeq { idSeq := none, leaseSlot := none, sequence := 0 } =
      SeqOutcome.ok s ns → s ≠ 0) ∧
    ∃ s ns, setEntrySeq { idSeq := none, leaseSlot := none, sequence := 0 } =
      SeqOutcome.ok s ns ∧ s ≠ 0 := by
  constructor
  · exact (setEntry_seq_nonzero _).1
  · exact (setEntry_seq_nonzero _).2 rfl (fun s h => by cases h) (by norm_num)

set_option maxRecDepth 4000 in
/-- C4 counterexample: with a memdb miss and an index block of 255 slots
none of which carries sequence 5, `readEntry` returns the zero slot with a
nil error — not the error `MsgIdDoesNotExist` the claim requires. -/
theorem readEntry_full_miss_counterexample :
    readEntry MemGetResult.missing (fun _ => List.replicate 255 zeroSlot) 9 5 =
      Except.ok zeroSlot ∧
    readEntry MemGetResult.missing (fun _ => List.replicate 255 zeroSlot) 9 5 ≠
      Except.error DBError.msgIdDoesNotExist := by
  have h1 : readEntry MemGetResult.missing (fun _ => List.replicate 255 zeroSlot) 9 5 =
      Except.ok zeroSlot := rfl
  refine ⟨h1, fun hcontra => ?_⟩
  rw [h1] at hcontra
  exact Except.noConfusion hcontra

/-- C4 (amended): for every `(topicHash, seq)` lookup where the memdb probe
misses and no slot of the index block for `startBlockIndex(seq)` carries a
matching sequence, `readEntry` returns the zero slot (sequence 0) and no
error; the `MsgIdDoesNotExist` error is defined in the package but is not
produced by `readEntry`. -/
theorem readEntry_full_miss_returns_zero_slot (readBlock : Nat → List slot)
    (topicHash seq : Nat)
    (h : ∀ s ∈ readBlock (startBlockIndex seq), s.seq ≠ seq) :
    readEntry MemGetResult.missing readBlock topicHash seq = Except.ok zeroSlot := by
  have hnone : (readBlock (startBlockIndex seq)).find? (fun s => s.seq == seq) = none := by
    rw [List.find?_eq_none]
    intro s hs
    simpa using h s hs
  simp only [readEntry, hnone]

/-- Witness for the amended C4 theorem at a concrete 255-slot block. -/
theorem readEntry_full_miss_returns_zero_slot_witness :
    readEntry MemGetResult.missing (fun _ => List.replicate 255 zeroSlot) 9 7 =
      Except.ok zeroSlot := by
  refine readEntry_full_miss_returns_zero_slot (fun _ => List.replicate 255 zeroSlot)
    9 7 (fun s hs => ?_)
  have hz : s = zeroSlot := List.eq_of_mem_replicate hs
  rw [hz]
  intro hcontra
  exact absurd hcontra (by decide)

theorem writeAt_append_start (d x p : List Nat) :
    writeAt (d ++ x) p d.length = d ++ writeAt x p 0 := by
  simpa using writeAt_append_right d x p 0

/-- The table after `Set` is the old table with the frame
`lengthPrefix ++ data` appended. -/
theorem cacheSet_blockCache (db : CacheDB) (k0 : Nat) (v0 : List Nat)
    (hb : v0.length + 4 < 2 ^ 32) :
    (db.Set k0 v0).blockCache =
      db.blockCache ++ (toLE 4 (v0.length + 4) ++ v0) := by
  have h4 : writeAt (toLE 4 (v0.length + 4) ++ List.replicate v0.length 0) v0 4 =
      toLE 4 (v0.length + 4) ++ v0 := by
    have hs := writeAt_append_start (toLE 4 (v0.length + 4))
      (List.replicate v0.length 0) v0
    rw [toLE_length] at hs
    rw [hs, writeAt_replicate_zero, Nat.sub_self, List.replicate_zero, List.append_nil]
  simp only [CacheDB.Set, Nat.mod_eq_of_lt hb]
  rw [writeAt_append_start, writeAt_replicate_zero, toLE_length, Nat.add_sub_cancel,
    writeAt_append_right, h4]

/-- Reading the length prefix of a frame appended at the end of the table. -/
theorem readRaw_frame_prefix (T p v : List Nat) (hp : p.length = 4) :
    readRaw (T ++ (p ++ v)) T.length 4 = p := by
  rw [readRaw_append_start, readRaw_zero_take]
  exact List.take_left' hp

/-- Reading a whole frame appended at the end of the table. -/
theorem readRaw_frame_full (T F : List Nat) (n : Nat) (hn : n = F.length) :
    readRaw (T ++ F) T.length n = F := by
  rw [readRaw_append_start, hn, readRaw_zero_full]

theorem cacheWF_open : cacheWF cacheOpen := by
  intro k off h
  simp [cacheOpen, alookup_nil] at h

/-- Get at an offset holding a well-formed frame yields the frame value. -/
theorem cacheGet_of_frame (db : CacheDB) (k : Nat) (off : Nat) (v : List Nat)
    (hl : alookup db.cache k = some off) (hb : v.length + 4 < 2 ^ 32)
    (hr : readRaw db.blockCache off (v.length + 4) = toLE 4 (v.length + 4) ++ v) :
    db.Get k = Except.ok v := by
  unfold CacheDB.Get
  rw [hl]
  have hscratch : readRaw db.blockCache off 4 = toLE 4 (v.length + 4) := by
    rw [readRaw_take db.blockCache off 4 (v.length + 4) (by omega), hr]
    exact List.take_left' (toLE_length _ _)
  have hlen : fromLE (toLE 4 (v.length + 4)) = v.length + 4 :=
    fromLE_toLE_of_lt (lt_of_lt_of_le hb (by norm_num))
  simp only [hscratch, hlen, hr]
  rw [List.drop_left' (toLE_length _ _)]

theorem cacheWF_set (db : CacheDB) (hwf : cacheWF db) (k0 : Nat) (v0 : List Nat)
    (hb : v0.length + 4 < 2 ^ 32) : cacheWF (db.Set k0 v0) := by
  intro k off hl
  have hc : (db.Set k0 v0).cache = ainsert db.cache k0 db.blockCache.length := rfl
  rw [hc, alookup_ainsert] at hl
  have hT := cacheSet_blockCache db k0 v0 hb
  by_cases hk : k0 = k
  · rw [if_pos hk] at hl
    cases hl
    refine ⟨v0, hb, ?_, ?_⟩
    · rw [hT]
      simp [toLE_length]
      omega
    · rw [hT]
      exact readRaw_frame_full _ _ _ (by simp [toLE_length]; omega)
  · rw [if_neg hk] at hl
    obtain ⟨v, hb2, hle, hr⟩ := hwf k off hl
    refine ⟨v, hb2, ?_, ?_⟩
    · rw [hT]
      simp only [List.length_append]
      omega
    · rw [hT, readRaw_append_left _ _ _ _ hle]
      exact hr

theorem cacheGet_set (db : CacheDB) (hwf : cacheWF db) (k0 : Nat) (v0 : List Nat)
    (k : Nat) (hb : v0.length + 4 < 2 ^ 32) :
    (db.Set k0 v0).Get k = if k0 = k then Except.ok v0 else db.Get k := by
  have hc : (db.Set k0 v0).cache = ainsert db.cache k0 db.blockCache.length := rfl
  have hT := cacheSet_blockCache db k0 v0 hb
  by_cases hk : k0 = k
  · rw [if_pos hk]
    refine cacheGet_of_frame _ _ db.blockCache.length v0 ?_ hb ?_
    · rw [hc, alookup_ainsert, if_pos hk]
    · rw [hT]
      exact readRaw_frame_full _ _ _ (by simp [toLE_length]; omega)
  · rw [if_neg hk]
    have hlk : alookup (db.Set k0 v0).cache k = alookup db.cache k := by
      rw [hc, alookup_ainsert, if_neg hk]
    cases hold : alookup db.cache k with
    | none =>
      unfold CacheDB.Get
      rw [hlk, hold]
    | some off =>
      obtain ⟨v, hb2, hle, hr⟩ := hwf k off hold
      rw [cacheGet_of_frame db k off v hold hb2 hr]
      refine cacheGet_of_frame _ _ off v (by rw [hlk, hold]) hb2 ?_
      rw [hT, readRaw_append_left _ _ _ _ hle]
      exact hr

theorem cacheRun_get_aux (ops : List (Nat × List Nat)) (db : CacheDB)
    (hwf : cacheWF db) (h : ∀ kv ∈ ops, kv.2.length + 4 < 2 ^ 32) (k : Nat) :
    (ops.foldl (fun db kv => db.Set kv.1 kv.2) db).Get k =
      match lastSet ops k with
      | some v => Except.ok v
      | none => db.Get k := by
  induction ops generalizing db with
  | nil => rfl
  | cons kv rest ih =>
    obtain ⟨k0, v0⟩ := kv
    have hb : v0.length + 4 < 2 ^ 32 := h (k0, v0) (List.mem_cons_self _ _)
    have hrest : ∀ kv ∈ rest, kv.2.length + 4 < 2 ^ 32 :=
      fun kv hkv => h kv (List.mem_cons_of_mem _ hkv)
    rw [List.foldl_cons, ih (db.Set k0 v0) (cacheWF_set db hwf k0 v0 hb) hrest]
    cases hls : lastSet rest k with
    | some v => simp only [lastSet, hls]
    | none =>
      simp only [lastSet, hls]
      rw [cacheGet_set db hwf k0 v0 k hb]
      by_cases hk : k0 = k
      · simp only [if_pos hk]
      · simp only [if_neg hk]

/-- C9: the in-memory cache DB satisfies a Set/Get round-trip.  For every
sequence of `Set` operations (each payload within the `uint32` frame bound)
and every key, `Get` returns exactly the most recent `Set` value for that
key, and `Get` of a key never set returns an error. -/
theorem cache_get_returns_last_set (ops : List (Nat × List Nat))
    (h : ∀ kv ∈ ops, kv.2.length + 4 < 2 ^ 32) (k : Nat) :
    (cacheRun ops).Get k =
      match lastSet ops k with
      | some v => Except.ok v
      | none => Except.error DBError.cacheEntryNotFound := by
  rw [cacheRun, cacheRun_get_aux ops cacheOpen cacheWF_open h k]
  cases lastSet ops k with
  | some v => rfl
  | none => rfl

/-- Witness for C9 at a concrete operation sequence: two sets of key 1 (the
second wins), one set of key 2, and key 3 never set. -/
theorem cache_get_returns_last_set_witness :
    (cacheRun [(1, [10, 20]), (2, [30]), (1, [40, 50, 60])]).Get 1 =
      Except.ok [40, 50, 60] ∧
    (cacheRun [(1, [10, 20]), (2, [30]), (1, [40, 50, 60])]).Get 2 =
      Except.ok [30] ∧
    (cacheRun [(1, [10, 20]), (2, [30]), (1, [40, 50, 60])]).Get 3 =
      Except.error DBError.cacheEntryNotFound := by
  have hb : ∀ kv ∈ [((1 : Nat), [(10 : Nat), 20]), (2, [30]), (1, [40, 50, 60])],
      kv.2.length + 4 < 2 ^ 32 := by decide
  refine ⟨?_, ?_, ?_⟩
  · have h := cache_get_returns_last_set _ hb 1
    rw [show lastSet [(1, [10, 20]), (2, [30]), (1, [40, 50, 60])] 1 =
      some [40, 50, 60] from rfl] at h
    exact h
  · have h := cache_get_returns_last_set _ hb 2
    rw [show lastSet [(1, [10, 20]), (2, [30]), (1, [40, 50, 60])] 2 =
      some [30] from rfl] at h
    exact h
  · have h := cache_get_returns_last_set _ hb 3
    rw [show lastSet [(1, [10, 20]), (2, [30]), (1, [40, 50, 60])] 3 =
      none from rfl] at h
    exact h

theorem writeAt_append_at (d x p : List Nat) (j : Nat) (hj : d.length = j) :
    writeAt (d ++ x) p j = d ++ writeAt x p 0 := by
  subst hj
  exact writeAt_append_start d x p

theorem blockPut_data (b : _Block) (ik : _Key) (v : List Nat)
    (hb : v.length + 13 < 2 ^ 32) :
    (b.put ik v).data = b.data ++ encFrame ik v := by
  have hmod : (v.length + 8 + 1 + 4) % 2 ^ 32 = v.length + 13 := by omega
  have hp2 : (ik.delFlag :: toLE 8 ik.key).length = 9 := by
    simp [toLE_length]
  simp only [_Block.put, hmod]
  rw [writeAt_append_start, writeAt_replicate_zero, toLE_length]
  have h94 : v.length + 13 - 4 = 9 + v.length := by omega
  rw [h94, writeAt_append_right, writeAt_append_at _ _ _ 4 (toLE_length 4 _),
    writeAt_replicate_zero, hp2]
  have h9v : 9 + v.length - 9 = v.length := by omega
  rw [h9v]
  have hoff : b.data.length + 8 + 1 + 4 = b.data.length + 13 := by omega
  rw [hoff]
  have h13 : (13 : Nat) = (toLE 4 (v.length + 13)).length + 9 := by
    rw [toLE_length]
  rw [writeAt_append_right]
  nth_rewrite 2 [h13]
  rw [writeAt_append_right, writeAt_append_at _ _ _ 9 hp2, writeAt_replicate_zero,
    Nat.sub_self, List.replicate_zero, List.append_nil, encFrame]

theorem drop13_of_parts (A B v : List Nat) (hA : A.length = 4) (hB : B.length = 9) :
    (A ++ (B ++ v)).drop 13 = v := by
  rw [List.drop_append_eq_append_drop, List.drop_eq_nil_of_le (by omega), hA,
    List.nil_append]
  rw [show (13 : Nat) - 4 = 9 from rfl, List.drop_append_eq_append_drop,
    List.drop_eq_nil_of_le (by omega), hB, Nat.sub_self, List.drop_zero,
    List.nil_append]

theorem encFrame_length (ik : _Key) (v : List Nat) :
    (encFrame ik v).length = v.length + 13 := by
  simp [encFrame, toLE_length]
  omega

theorem blockWF_newBlock : blockWF newBlock := by
  intro ik off h
  simp [newBlock, alookup_nil] at h

/-- Decoding the framed record at a recorded offset yields its payload. -/
theorem blockReadValue_of_frame (b : _Block) (k : Nat) (off : Nat) (v : List Nat)
    (hl : alookup b.records (iKey false k) = some off) (hb : v.length + 13 < 2 ^ 32)
    (hr : readRaw b.data off (v.length + 13) = encFrame (iKey false k) v) :
    b.readValue k = some v := by
  unfold _Block.readValue
  rw [hl]
  have hscratch : readRaw b.data off 4 = toLE 4 (v.length + 13) := by
    rw [readRaw_take b.data off 4 (v.length + 13) (by omega), hr]
    exact List.take_left' (toLE_length _ _)
  have hlen : fromLE (toLE 4 (v.length + 13)) = v.length + 13 :=
    fromLE_toLE_of_lt (lt_of_lt_of_le hb (by norm_num))
  simp only [hscratch, hlen, hr, encFrame]
  rw [drop13_of_parts _ _ _ (toLE_length _ _) (by simp [toLE_length])]

theorem blockWF_put (b : _Block) (hwf : blockWF b) (ik : _Key) (v : List Nat)
    (hb : v.length + 13 < 2 ^ 32) : blockWF (b.put ik v) := by
  intro ik1 off hl
  have hc : (b.put ik v).records = ainsert b.records ik b.data.length := rfl
  have hT := blockPut_data b ik v hb
  rw [hc, alookup_ainsert] at hl
  by_cases hk : ik = ik1
  · rw [if_pos hk] at hl
    cases hl
    subst hk
    refine ⟨v, hb, ?_, ?_⟩
    · rw [hT, List.length_append, encFrame_length]
    · rw [hT]
      exact readRaw_frame_full _ _ _ (encFrame_length ik v).symm
  · rw [if_neg hk] at hl
    obtain ⟨w, hb2, hle, hr⟩ := hwf ik1 off hl
    refine ⟨w, hb2, ?_, ?_⟩
    · rw [hT, List.length_append]
      omega
    · rw [hT, readRaw_append_left _ _ _ _ hle]
      exact hr

/-- `readValue` after a `put`: the non-deleted key just written reads back
its payload; every other key is unchanged. -/
theorem blockReadValue_put (b : _Block) (hwf : blockWF b) (ik : _Key)
    (v : List Nat) (k : Nat) (hb : v.length + 13 < 2 ^ 32) :
    (b.put ik v).readValue k =
      if ik = iKey false k then some v else b.readValue k := by
  have hc : (b.put ik v).records = ainsert b.records ik b.data.length := rfl
  have hT := blockPut_data b ik v hb
  by_cases hk : ik = iKey false k
  · rw [if_pos hk]
    refine blockReadValue_of_frame _ _ b.data.length v ?_ hb ?_
    · rw [hc, alookup_ainsert, if_pos hk]
    · rw [hT, hk]
      exact readRaw_frame_full _ _ _ (encFrame_length _ v).symm
  · rw [if_neg hk]
    have hlk : alookup (b.put ik v).records (iKey false k) =
        alookup b.records (iKey false k) := by
      rw [hc, alookup_ainsert, if_neg hk]
    cases hold : alookup b.records (iKey false k) with
    | none =>
      unfold _Block.readValue
      rw [hlk, hold]
    | some off =>
      obtain ⟨w, hb2, hle, hr⟩ := hwf (iKey false k) off hold
      rw [blockReadValue_of_frame b k off w hold hb2 hr]
      refine blockReadValue_of_frame _ _ off w (by rw [hlk, hold]) hb2 ?_
      rw [hT, readRaw_append_left _ _ _ _ hle]
      exact hr

theorem mem_aerase {α β : Type} [DecidableEq α] (l : List (α × β)) (k : α)
    (kv : α × β) : kv ∈ aerase l k → kv ∈ l := by
  induction l with
  | nil => intro h; exact h
  | cons hd t ih =>
    obtain ⟨k1, v1⟩ := hd
    intro h
    rw [aerase_cons] at h
    by_cases h1 : k1 = k
    · rw [if_pos h1] at h
      exact List.mem_cons_of_mem _ h
    · rw [if_neg h1] at h
      rcases List.mem_cons.mp h with h | h
      · exact List.mem_cons.mpr (Or.inl h)
      · exact List.mem_cons.mpr (Or.inr (ih h))

theorem recoverStep_nodup (log : List (Nat × List Nat)) (d : List Nat)
    (hnd : (akeys log).Nodup) : (akeys (recoverStep log d)).Nodup := by
  unfold recoverStep
  by_cases h : (parseLogData d).1 = 1
  · rw [if_pos h]
    exact akeys_aerase_nodup log _ hnd
  · rw [if_neg h]
    exact akeys_ainsert_nodup log _ _ hnd

theorem recoverStep_lookup (log : List (Nat × List Nat)) (d : List Nat)
    (hnd : (akeys log).Nodup) (k : Nat) :
    alookup (recoverStep log d) k =
      specStep (fun k0 => alookup log k0) (parseLogData d) k := by
  unfold recoverStep specStep
  by_cases h : (parseLogData d).1 = 1
  · rw [if_pos h, if_pos h, alookup_aerase log _ k hnd]
  · rw [if_neg h, if_neg h, alookup_ainsert]

theorem recover_fold_lookup (rs : List (List Nat)) (log : List (Nat × List Nat))
    (hnd : (akeys log).Nodup) (k : Nat) :
    alookup (rs.foldl recoverStep log) k =
      List.foldl specStep (fun k0 => alookup log k0) (rs.map parseLogData) k := by
  induction rs generalizing log with
  | nil => rfl
  | cons d rest ih =>
    rw [List.foldl_cons, List.map_cons, List.foldl_cons,
      ih (recoverStep log d) (recoverStep_nodup log d hnd)]
    have hfun : (fun k0 => alookup (recoverStep log d) k0) =
        specStep (fun k0 => alookup log k0) (parseLogData d) := by
      funext k0
      exact recoverStep_lookup log d hnd k0
    rw [hfun]

theorem recoverLog_lookup (rs : List (List Nat)) (k : Nat) :
    alookup (recoverLog rs) k = specDirectKV (rs.map parseLogData) k := by
  unfold recoverLog specDirectKV
  rw [recover_fold_lookup rs [] (by simp [akeys_nil]) k]
  have hfun : (fun k0 => alookup ([] : List (Nat × List Nat)) k0) =
      (fun _ : Nat => (none : Option (List Nat))) := by
    funext k0
    rfl
  rw [hfun]

theorem recoverLog_nodup (rs : List (List Nat)) : (akeys (recoverLog rs)).Nodup := by
  unfold recoverLog
  have haux : ∀ (rs2 : List (List Nat)) (log : List (Nat × List Nat)),
      (akeys log).Nodup → (akeys (rs2.foldl recoverStep log)).Nodup := by
    intro rs2
    induction rs2 with
    | nil => intro log h; exact h
    | cons d rest ih =>
      intro log h
      exact ih (recoverStep log d) (recoverStep_nodup log d h)
  exact haux rs [] (by simp [akeys_nil])

theorem recoverLog_value_bound (rs : List (List Nat))
    (h : ∀ d ∈ rs, d.length + 4 < 2 ^ 32) :
    ∀ kv ∈ recoverLog rs, kv.2.length + 13 < 2 ^ 32 := by
  unfold recoverLog
  have haux : ∀ (rs2 : List (List Nat)) (log : List (Nat × List Nat)),
      (∀ d ∈ rs2, d.length + 4 < 2 ^ 32) →
      (∀ kv ∈ log, kv.2.length + 13 < 2 ^ 32) →
      ∀ kv ∈ rs2.foldl recoverStep log, kv.2.length + 13 < 2 ^ 32 := by
    intro rs2
    induction rs2 with
    | nil => intro log _ hlog; exact hlog
    | cons d rest ih =>
      intro log hrs hlog
      refine ih (recoverStep log d) (fun d2 hd2 => hrs d2 (List.mem_cons_of_mem _ hd2)) ?_
      intro kv hkv
      unfold recoverStep at hkv
      by_cases hbit : (parseLogData d).1 = 1
      · rw [if_pos hbit] at hkv
        exact hlog kv (mem_aerase _ _ _ hkv)
      · rw [if_neg hbit] at hkv
        rcases mem_ainsert _ _ _ _ hkv with h2 | h2
        · exact hlog kv h2
        · subst h2
          have hd : d.length + 4 < 2 ^ 32 := hrs d (List.mem_cons_self _ _)
          simp only [parseLogData, List.length_drop]
          omega
  exact haux rs [] h (fun kv hkv => by simp at hkv)

theorem iKey_false_inj (a b : Nat) (h : iKey false a = iKey false b) : a = b := by
  simpa [iKey] using congrArg _Key.key h

theorem foldPut_readValue (m : List (Nat × List Nat)) (b : _Block)
    (hnd : (akeys m).Nodup) (hP : ∀ kv ∈ m, kv.2.length + 13 < 2 ^ 32)
    (hwf : blockWF b) (k : Nat) :
    (m.foldl (fun b kv => b.put (iKey false kv.1) kv.2) b).readValue k =
      match alookup m k with
      | some v => some v
      | none => b.readValue k := by
  induction m generalizing b with
  | nil => rfl
  | cons kv rest ih =>
    obtain ⟨k0, v0⟩ := kv
    have hb0 : v0.length + 13 < 2 ^ 32 := hP (k0, v0) (List.mem_cons_self _ _)
    rw [akeys_cons, List.nodup_cons] at hnd
    obtain ⟨hni, hnd2⟩ := hnd
    have hPrest : ∀ kv ∈ rest, kv.2.length + 13 < 2 ^ 32 :=
      fun kv hkv => hP kv (List.mem_cons_of_mem _ hkv)
    rw [List.foldl_cons,
      ih (b.put (iKey false k0) v0) hnd2 hPrest (blockWF_put b hwf _ v0 hb0),
      alookup_cons]
    by_cases hk : k0 = k
    · rw [if_pos hk, alookup_eq_none_of_not_mem rest k (hk ▸ hni)]
      rw [blockReadValue_put b hwf _ v0 k hb0, if_pos (by rw [hk])]
    · rw [if_neg hk]
      cases hrest : alookup rest k with
      | some v => rfl
      | none =>
        rw [blockReadValue_put b hwf _ v0 k hb0,
          if_neg (fun e => hk (iKey_false_inj k0 k e))]

/-- C1: recovery replay is idempotent with respect to the staged writes.
For every sequence of framed log records (each at least 9 bytes: delete
bit, 8-byte key, payload; each small enough for its `uint32` frame), the
memdb obtained by folding the records into a key-value map as
`startRecover` does — delete-bit 1 removes the key, a put record (re)binds
it — then `Reset`-ting the WAL and re-issuing `Put` for every surviving
binding, has exactly the key→value contents of executing the original
put/delete operations directly on a key-value store. -/
theorem recovery_replay_refines_direct (rs : List (List Nat))
    (h : ∀ d ∈ rs, 9 ≤ d.length ∧ d.length + 4 < 2 ^ 32) (k : Nat) :
    (replayBlock rs).readValue k = specDirectKV (rs.map parseLogData) k := by
  unfold replayBlock
  rw [foldPut_readValue (recoverLog rs) newBlock (recoverLog_nodup rs)
    (recoverLog_value_bound rs (fun d hd => (h d hd).2)) blockWF_newBlock k,
    recoverLog_lookup rs k]
  cases hs : specDirectKV (rs.map parseLogData) k with
  | some v => rfl
  | none => rfl

/-- Witness for C1 on a concrete WAL: put key 1, put key 2, delete key 1.
The replayed block holds exactly key 2 with its payload; key 1 is gone. -/
theorem recovery_replay_refines_direct_witness :
    (replayBlock [[0, 1, 0, 0, 0, 0, 0, 0, 0, 170],
      [0, 2, 0, 0, 0, 0, 0, 0, 0, 187],
      [1, 1, 0, 0, 0, 0, 0, 0, 0, 9, 9, 9, 9, 9, 9, 9, 9]]).readValue 2 =
      some [187] ∧
    (replayBlock [[0, 1, 0, 0, 0, 0, 0, 0, 0, 170],
      [0, 2, 0, 0, 0, 0, 0, 0, 0, 187],
      [1, 1, 0, 0, 0, 0, 0, 0, 0, 9, 9, 9, 9, 9, 9, 9, 9]]).readValue 1 =
      none := by
  have hlen : ∀ d ∈ [[(0 : Nat), 1, 0, 0, 0, 0, 0, 0, 0, 170],
      [0, 2, 0, 0, 0, 0, 0, 0, 0, 187],
      [1, 1, 0, 0, 0, 0, 0, 0, 0, 9, 9, 9, 9, 9, 9, 9, 9]],
      9 ≤ d.length ∧ d.length + 4 < 2 ^ 32 := by decide
  constructor
  · have h2 := recovery_replay_refines_direct _ hlen 2
    rw [show specDirectKV (List.map parseLogData
      [[(0 : Nat), 1, 0, 0, 0, 0, 0, 0, 0, 170],
       [0, 2, 0, 0, 0, 0, 0, 0, 0, 187],
       [1, 1, 0, 0, 0, 0, 0, 0, 0, 9, 9, 9, 9, 9, 9, 9, 9]]) 2 =
      some [187] from rfl] at h2
    exact h2
  · have h1 := recovery_replay_refines_direct _ hlen 1
    rw [show specDirectKV (List.map parseLogData
      [[(0 : Nat), 1, 0, 0, 0, 0, 0, 0, 0, 170],
       [0, 2, 0, 0, 0, 0, 0, 0, 0, 187],
       [1, 1, 0, 0, 0, 0, 0, 0, 0, 9, 9, 9, 9, 9, 9, 9, 9]]) 1 =
      none from rfl] at h1
    exact h1

/-- C10: `Reader.Read` unconditionally truncates `wal.recoveredLogs` to
empty when it returns — on the success path, on the error path (including
a callback that rejects a group), and state is not restored on error — so
a second `Read` on the same WAL sees no recovered groups: it invokes the
callback on nothing, flips no statuses, and returns nil. -/
theorem reader_read_truncates_recoveredLogs :
    (∀ (w : WALState) (f : Int → Bool × Option Unit),
      (readerRead w f).recoveredLogs = []) ∧
    (∀ (w : WALState) (f : Int → Bool × Option Unit), w.recoveredLogs = [] →
      readerRead w f = emptyReadResult) ∧
    readerRead walTwoGroups rejectGroup8 =
      { recoveredLogs := []
        err := some ()
        calls := [7, 8]
        statusWrites := [(47, walTwoGroupsReleased0)]
        headerWritten := false } := by
  refine ⟨?_, ?_, ?_⟩
  · intro w f
    rfl
  · intro w f hempty
    unfold readerRead
    rw [hempty]
    rfl
  · rfl

/-- Witness for C10: a WAL holding one WRITTEN group whose callback errors
still comes out with an empty recovered-log list, and a second read on the
emptied WAL performs no work. -/
theorem reader_read_truncates_recoveredLogs_witness :
    (readerRead walOneGroup (fun _ => (true, some ()))).recoveredLogs = [] ∧
    readerRead walDrained (fun _ => (true, some ())) = emptyReadResult := by
  constructor
  · exact reader_read_truncates_recoveredLogs.1 walOneGroup (fun _ => (true, some ()))
  · exact reader_read_truncates_recoveredLogs.2.1 walDrained (fun _ => (true, some ())) rfl

end Unitdb
